import Mathlib

/-!
Verification of the LangCheck model manager
(`src/langcheck/metrics/model_manager/_model_management.py`) and of the
`to_full_width` augmenter (`src/langcheck/augment/en/_to_full_width.py`),
embedded shallowly:

* Python dicts (and the OmegaConf mappings holding the configuration) become
  association lists with Python's insertion-order semantics;
* the Hugging Face availability probe `check_model_availability` and the
  pseudo-random stream `random.random()` become oracle parameters;
* the `functools.lru_cache` on `fetch_model` becomes an explicit memo table
  inside the manager state, and each actual loader invocation is recorded on a
  trace so that "the same model instance" and "the loader ran once" are
  expressible;
* `raise`/`except` become `Except` values.
-/

namespace LangCheck

/-- Python dict lookup `d.get(k)` (`None` when absent): first matching key. -/
def dictGet? {κ α : Type} [DecidableEq κ] (k : κ) : List (κ × α) → Option α
  | [] => none
  | (k', v) :: rest => if k' = k then some v else dictGet? k rest

/-- Python `k in d`. -/
def dictContains {κ α : Type} [DecidableEq κ] (k : κ) (d : List (κ × α)) : Bool :=
  (dictGet? k d).isSome

/-- Python `d.pop(k, None)`: the popped value and the dict after removal of the
first matching pair. -/
def dictPop {κ α : Type} [DecidableEq κ] (k : κ) : List (κ × α) → Option α × List (κ × α)
  | [] => (none, [])
  | (k', v) :: rest =>
    if k' = k then (some v, rest)
    else
      let r := dictPop k rest
      (r.1, (k', v) :: r.2)

/-- Python `d[k] = v`: update the first occurrence in place (keeping its
position, as dicts keep insertion order), else append. -/
def dictSet {κ α : Type} [DecidableEq κ] (k : κ) (v : α) : List (κ × α) → List (κ × α)
  | [] => [(k, v)]
  | (k', v') :: rest => if k' = k then (k, v) :: rest else (k', v') :: dictSet k v rest

/-- The attribute dict of one `(language, metric)` configuration entry
(keys such as `model_name`, `loader_func`, `tokenizer_name`, `revision`). -/
abbrev Attrs := List (String × String)

/-- One language's configuration: metric name to attribute dict. -/
abbrev LangConfig := List (String × Attrs)

/-- The whole configuration store `self.config`: language to `LangConfig`. -/
abbrev Config := List (String × LangConfig)

/-- The three loading strategies registered in `LOADER_MAP`. -/
inductive LoaderStrategy where
  | sentenceTransformers
  | textClassification
  | seq2seq
deriving DecidableEq

/-- `LOADER_MAP`: loader-function name to loading strategy. -/
def LOADER_MAP : List (String × LoaderStrategy) :=
  [("load_sentence_transformers", LoaderStrategy.sentenceTransformers),
   ("load_auto_model_for_text_classification", LoaderStrategy.textClassification),
   ("load_auto_model_for_seq2seq", LoaderStrategy.seq2seq)]

/-- `VALID_LOADER_FUNCTION = LOADER_MAP.keys()`. -/
def VALID_LOADER_FUNCTION : List String := LOADER_MAP.map Prod.fst

/-- `VALID_METRICS`. -/
def VALID_METRICS : List String :=
  ["semantic_similarity", "sentiment", "toxicity", "factual_consistency"]

/-- `VALID_LANGUAGE`. -/
def VALID_LANGUAGE : List String := ["zh"]

/-- Errors raised by the manager: Python's `KeyError` and `ValueError`. -/
inductive CfgError where
  | keyError (msg : String)
  | valueError (msg : String)
deriving DecidableEq

/-- Oracle for `check_model_availability(model_name, revision)`: whether the
Hugging Face hub answers 200 for this model and optional revision. -/
abbrev Avail := String → Option String → Bool

/-- `validate_config`, entry level, on the working (deep-copied) attribute
dict: the `in` checks, then the destructive `pop`s of `model_name`,
`revision` and `loader_func`, then the loader and availability checks.
Returns the verdict together with the post-run state of the working dict
(an exception leaves the pops already performed). -/
def validate_entry_mut (avail : Avail) (ms : Attrs) : Except CfgError Unit × Attrs :=
  if ¬ dictContains "model_name" ms then
    (Except.error (CfgError.keyError "need a model, but found None!"), ms)
  else if ¬ dictContains "loader_func" ms then
    (Except.error (CfgError.keyError "need a loader, but found None!"), ms)
  else
    let p1 := dictPop "model_name" ms
    match p1.1 with
    | none => (Except.error (CfgError.keyError "model_name"), p1.2)
    | some model_name =>
      let p2 := dictPop "revision" p1.2
      let p3 := dictPop "loader_func" p2.2
      match p3.1 with
      | none =>
        (Except.error (CfgError.valueError "loader type should in VALID_LOADER_FUNCTION"), p3.2)
      | some loader_func =>
        if loader_func ∉ VALID_LOADER_FUNCTION then
          (Except.error (CfgError.valueError "loader type should in VALID_LOADER_FUNCTION"), p3.2)
        else if ¬ avail model_name p2.1 then
          (Except.error (CfgError.valueError "Cannot find model with revision and Huggingface Hub"), p3.2)
        else (Except.ok (), p3.2)

/-- `validate_config`, inner loop over one language's metric entries, with the
`metric` filter; threads the mutated working dicts through. An error stops
the loop (the exception propagates), leaving later entries untouched. -/
def validate_metrics_mut (avail : Avail) (metric : String) :
    LangConfig → Except CfgError Unit × LangConfig
  | [] => (Except.ok (), [])
  | (metricName, ms) :: rest =>
    if metric ≠ "all" ∧ metricName ≠ metric then
      let r := validate_metrics_mut avail metric rest
      (r.1, (metricName, ms) :: r.2)
    else
      let e := validate_entry_mut avail ms
      match e.1 with
      | Except.error err => (Except.error err, (metricName, e.2) :: rest)
      | Except.ok _ =>
        let r := validate_metrics_mut avail metric rest
        (r.1, (metricName, e.2) :: r.2)

/-- `validate_config`, outer loop over the languages, with the `language`
filter. -/
def validate_langs_mut (avail : Avail) (language metric : String) :
    Config → Except CfgError Unit × Config
  | [] => (Except.ok (), [])
  | (lang, ls) :: rest =>
    if language ≠ "all" ∧ lang ≠ language then
      let r := validate_langs_mut avail language metric rest
      (r.1, (lang, ls) :: r.2)
    else
      let e := validate_metrics_mut avail metric ls
      match e.1 with
      | Except.error err => (Except.error err, (lang, e.2) :: rest)
      | Except.ok _ =>
        let r := validate_langs_mut avail language metric rest
        (r.1, (lang, e.2) :: r.2)

/-- `ModelManager.validate_config(config, language, metric)`: the verdict.
The body runs on `deepcopy(config)` (line 115), so only the verdict escapes. -/
def validate_config (avail : Avail) (config : Config) (language metric : String) :
    Except CfgError Unit :=
  (validate_langs_mut avail language metric config).1

/-- `validate_config` as the caller observes it: the argument object is
deep-copied on entry (`config = deepcopy(config)`), the destructive pops run
on the copy, and the caller's mapping is returned unchanged alongside the
verdict. -/
def validate_config_caller (avail : Avail) (config : Config) (language metric : String) :
    Except CfgError Unit × Config :=
  ((validate_langs_mut avail language metric config).1, config)

/-- A loaded model instance as `fetch_model` returns it: which loader built
it, the keyword arguments it received (the entry minus `loader_func`), and
the index of the loader invocation that created it (so that two instances
born from distinct invocations are distinct). -/
structure ModelInstance where
  loader : String
  kwargs : Attrs
  uid : Nat
deriving DecidableEq

/-- The `ModelManager` state: the configuration store, the `lru_cache` memo
table of `fetch_model` keyed by `(language, metric)`, and the trace of actual
loader invocations (loader name and keyword arguments). -/
structure MMState where
  config : Config
  cacheEntries : List ((String × String) × ModelInstance)
  loaderCalls : List (String × Attrs)
deriving DecidableEq

/-- The fresh manager before `__load_config` runs: `OmegaConf.create()` is an
empty mapping, the memo table and call trace are empty. -/
def initMM : MMState := ⟨[], [], []⟩

/-- `ModelManager.fetch_model(language, metric)`. The `lru_cache` layer
answers first; on a miss the body looks the entry up, deep-copies it, pops
`loader_func` from the copy, dispatches through `LOADER_MAP`, and invokes the
loader with the remaining attributes; a successful result is memoized. -/
def fetch_model (st : MMState) (language metric : String) :
    Except CfgError ModelInstance × MMState :=
  match dictGet? (language, metric) st.cacheEntries with
  | some inst => (Except.ok inst, st)
  | none =>
    match dictGet? language st.config with
    | none => (Except.error (CfgError.keyError "Language not supported yet"), st)
    | some lsetting =>
      match dictGet? metric lsetting with
      | none => (Except.error (CfgError.keyError "Metric not supported yet."), st)
      | some entry =>
        match (dictPop "loader_func" entry).1 with
        | none => (Except.error (CfgError.keyError "loader_func"), st)
        | some lf =>
          match dictGet? lf LOADER_MAP with
          | none => (Except.error (CfgError.keyError "loader_func not in LOADER_MAP"), st)
          | some _strategy =>
            (Except.ok ⟨lf, (dictPop "loader_func" entry).2, st.loaderCalls.length⟩,
             { st with
                cacheEntries := st.cacheEntries ++
                  [((language, metric),
                    ⟨lf, (dictPop "loader_func" entry).2, st.loaderCalls.length⟩)],
                loaderCalls := st.loaderCalls ++ [(lf, (dictPop "loader_func" entry).2)] })

/-- `if value:` guard around a dict write: the popped kwarg is written only
when it is truthy (present, and not the empty string). -/
def setIfTruthy (k : String) (v? : Option String) (d : Attrs) : Attrs :=
  match v? with
  | some v => if v ≠ "" then dictSet k v d else d
  | none => d

/-- The attribute writes of `__set_model_for_metric` on `detail_config`:
`loader_func` and `model_name` are always (over)written on the existing
entry `old`, then `tokenizer_name` and `revision` are written when the
corresponding kwargs (`tokenizer_name`, `model_revision`) are truthy.
Pre-existing attributes not overwritten stay in place. -/
def merged_detail (old : Attrs) (model_name loader_func : String) (kwargs : Attrs) : Attrs :=
  let detail1 := dictSet "loader_func" loader_func old
  let detail2 := dictSet "model_name" model_name detail1
  let ptok := dictPop "tokenizer_name" kwargs
  let detail3 := setIfTruthy "tokenizer_name" ptok.1 detail2
  let prev := dictPop "model_revision" ptok.2
  setIfTruthy "revision" prev.1 detail3

/-- The configuration as `__set_model_for_metric` leaves it when no error is
raised: missing nested mappings are first initialized
(`self.config[language] = {}`, `self.config[language][metric] = {}`), then
the entry is mutated in place through `merged_detail`. -/
def set_new_config (config : Config) (language metric model_name loader_func : String)
    (kwargs : Attrs) : Config :=
  let config1 := if (dictGet? language config).isNone then dictSet language [] config else config
  let lsetting := (dictGet? language config1).getD []
  let lsetting1 :=
    if (dictGet? metric lsetting).isNone then dictSet metric [] lsetting else lsetting
  let detail := (dictGet? metric lsetting1).getD []
  dictSet language (dictSet metric (merged_detail detail model_name loader_func kwargs) lsetting1)
    config1

/-- The body of `ModelManager.__set_model_for_metric` inside the `try`:
the language and metric guards, the in-place update through
`set_new_config`, and the final `validate_config` call on the mutated
configuration (filtered to this language and metric). Returns the new
configuration on success. -/
def set_body (avail : Avail) (config : Config)
    (language metric model_name loader_func : String) (kwargs : Attrs) :
    Except CfgError Config :=
  if language ∉ VALID_LANGUAGE then
    Except.error (CfgError.keyError "Language not supported yet")
  else if metric ∉ VALID_METRICS then
    Except.error (CfgError.keyError "Language not supported metric yet")
  else
    match validate_config avail
        (set_new_config config language metric model_name loader_func kwargs) language metric with
    | Except.error err => Except.error err
    | Except.ok _ =>
      Except.ok (set_new_config config language metric model_name loader_func kwargs)

/-- `ModelManager.__set_model_for_metric`: deep-copy the configuration as the
rollback point, run the body, and on a `ValueError`/`KeyError` restore the
snapshot and re-raise. On success the memo table is left as it was, because
the `cache_clear()` call sits under `if ModelManager.validate_config(...)`
whose condition is always `None` and hence falsy. -/
def set_model_for_metric (avail : Avail) (st : MMState)
    (language metric model_name loader_func : String) (kwargs : Attrs) :
    Except CfgError Unit × MMState :=
  match set_body avail st.config language metric model_name loader_func kwargs with
  | Except.error err => (Except.error err, { st with config := st.config })
  | Except.ok newConfig => (Except.ok (), { st with config := newConfig })

/-- One public operation on a `ModelManager`: a `__set_model_for_metric` call
(each carrying the hub's availability answers at the moment of the call) or a
`fetch_model` call. -/
inductive MMOp where
  | setModel (avail : Avail) (language metric model_name loader_func : String) (kwargs : Attrs)
  | fetch (language metric : String)

/-- Run one operation, keeping the post-state (exceptions propagate to the
caller but leave the state as the method left it). -/
def applyOp (st : MMState) : MMOp → MMState
  | MMOp.setModel avail language metric model_name loader_func kwargs =>
    (set_model_for_metric avail st language metric model_name loader_func kwargs).2
  | MMOp.fetch language metric => (fetch_model st language metric).2

/-- Run a sequence of operations from a state. -/
def applyOps (ops : List MMOp) (st : MMState) : MMState :=
  ops.foldl applyOp st

/-- An attribute dict satisfies the data-model invariant: it has a
`model_name`, and it has a `loader_func` naming one of the three registered
strategies. -/
def EntryOK (ms : Attrs) : Prop :=
  (dictGet? "model_name" ms).isSome = true ∧
  ∃ lf, dictGet? "loader_func" ms = some lf ∧ lf ∈ VALID_LOADER_FUNCTION

/-- Every entry of the configuration store satisfies `EntryOK`. -/
def ConfigOK (cfg : Config) : Prop :=
  ∀ p ∈ cfg, ∀ q ∈ p.2, EntryOK q.2

/-- Every key memoized in the `fetch_model` cache is still resolvable in the
configuration store. -/
def CacheConsistent (st : MMState) : Prop :=
  ∀ c ∈ st.cacheEntries,
    ∃ ls, dictGet? c.1.1 st.config = some ls ∧ (dictGet? c.1.2 ls).isSome = true

/-- Spec-side statement of the four per-entry validation conditions, read off
from the spec: the entry has a `model_name`, has a `loader_func`, the
`loader_func` is one of the three registered strategies, and the
`model_name` together with the optional `revision` resolves on the hub.
The first violated condition, in that order, as the error `validate_config`
raises; `none` when the entry passes. -/
def entry_violation (avail : Avail) (ms : Attrs) : Option CfgError :=
  if ¬ dictContains "model_name" ms then
    some (CfgError.keyError "need a model, but found None!")
  else if ¬ dictContains "loader_func" ms then
    some (CfgError.keyError "need a loader, but found None!")
  else if ((dictGet? "loader_func" ms).getD "") ∉ VALID_LOADER_FUNCTION then
    some (CfgError.valueError "loader type should in VALID_LOADER_FUNCTION")
  else if ¬ avail ((dictGet? "model_name" ms).getD "") (dictGet? "revision" ms) then
    some (CfgError.valueError "Cannot find model with revision and Huggingface Hub")
  else none

/-- Spec-side statement of the whole validation pass: scanning the entries in
storage order, restricted to those selected by the `language` and `metric`
filters, the first violation found (or `none` when every selected entry
passes all four conditions). -/
def config_first_violation (avail : Avail) (cfg : Config) (language metric : String) :
    Option CfgError :=
  cfg.findSome? fun p =>
    if language ≠ "all" ∧ p.1 ≠ language then none
    else p.2.findSome? fun q =>
      if metric ≠ "all" ∧ q.1 ≠ metric then none
      else entry_violation avail q.2

/-- Package an optional violation as the outcome of a validation pass. -/
def violationOutcome : Option CfgError → Except CfgError Unit
  | none => Except.ok ()
  | some e => Except.error e

/-! ## The `to_full_width` augmenter -/

/-- `jaconv.h2z(c, kana=False, ascii=True, digit=True)` on a single
character (third-party collaborator, modelled from jaconv's conversion
tables): the half-width space maps to the ideographic space U+3000, every
other printable ASCII character maps to its full-width form at an offset of
0xFEE0, and any other character is left alone. -/
def h2z_char (c : Char) : Char :=
  if c.toNat = 0x20 then Char.ofNat 0x3000
  else if 0x21 ≤ c.toNat ∧ c.toNat ≤ 0x7E then Char.ofNat (c.toNat + 0xFEE0)
  else c

/-- The inner character loop of `to_full_width` on one instance: each
character consumes one draw `rnd i` of the random stream (`random.random()`,
a value in `[0, 1)`), is kept unchanged when the draw exceeds `aug_char_p`,
and is converted through `h2z_char` otherwise. Returns the perturbed
characters and the next stream position. -/
def perturbChars (p : ℚ) (rnd : Nat → ℚ) : List Char → Nat → List Char × Nat
  | [], i => ([], i)
  | c :: cs, i =>
    let out := if rnd i > p then c else h2z_char c
    let r := perturbChars p rnd cs (i + 1)
    (out :: r.1, r.2)

/-- The `for _ in range(num_perturbations)` loop: `n` perturbed copies of one
instance, threading the random stream. -/
def perturbRepeat (p : ℚ) (rnd : Nat → ℚ) (s : List Char) : Nat → Nat → List (List Char) × Nat
  | 0, i => ([], i)
  | Nat.succ k, i =>
    let one := perturbChars p rnd s i
    let rest := perturbRepeat p rnd s k one.2
    (one.1 :: rest.1, rest.2)

/-- The outer `for instance in instances` loop of `to_full_width`. -/
def perturbAll (p : ℚ) (rnd : Nat → ℚ) (n : Nat) : List (List Char) → Nat → List (List Char) × Nat
  | [], i => ([], i)
  | s :: ss, i =>
    let xs := perturbRepeat p rnd s n i
    let ys := perturbAll p rnd n ss xs.2
    (xs.1 ++ ys.1, ys.2)

/-- Normalize the `str | list[str]` argument:
`instances = [instances] if isinstance(instances, str) else instances`. -/
def normalizeInstances : String ⊕ List String → List String
  | Sum.inl s => [s]
  | Sum.inr l => l

/-- `langcheck.augment.en.to_full_width(instances, aug_char_p=..., num_perturbations=...)`,
with the random stream made explicit. -/
def to_full_width (instances : String ⊕ List String) (aug_char_p : ℚ)
    (num_perturbations : Nat) (rnd : Nat → ℚ) : List String :=
  ((perturbAll aug_char_p rnd num_perturbations
      ((normalizeInstances instances).map String.data) 0).1).map
    fun cs => String.mk cs

/-! ## Concrete states used for witnesses and counterexamples -/

/-- A hub oracle that answers 200 for every model and revision. -/
def availAll : Avail := fun _ _ => true

/-- A hub oracle on which no model resolves. -/
def availNone : Avail := fun _ _ => false

/-- The `(zh, semantic_similarity)` entry pinning `modelA`. -/
def entryA : Attrs := [("loader_func", "load_sentence_transformers"), ("model_name", "modelA")]

/-- The instance loaded from `entryA` by the first loader invocation. -/
def instA : ModelInstance := ⟨"load_sentence_transformers", [("model_name", "modelA")], 0⟩

/-- A manager configured for `(zh, semantic_similarity)` with `modelA`,
nothing fetched yet. -/
def stCfg : MMState := ⟨[("zh", [("semantic_similarity", entryA)])], [], []⟩

/-- The manager `stCfg` after one successful fetch: `instA` is memoized. -/
def stA : MMState :=
  ⟨[("zh", [("semantic_similarity", entryA)])],
   [(("zh", "semantic_similarity"), instA)],
   [("load_sentence_transformers", [("model_name", "modelA")])]⟩

/-! ## Lemmas about the dict operations -/

theorem dictPop_fst {κ α : Type} [DecidableEq κ] (k : κ) (d : List (κ × α)) :
    (dictPop k d).1 = dictGet? k d := by
  induction d with
  | nil => rfl
  | cons hd tl ih =>
    obtain ⟨k', v⟩ := hd
    by_cases h : k' = k <;> simp [dictPop, dictGet?, h, ih]

theorem dictGet?_dictPop_ne {κ α : Type} [DecidableEq κ] {k k' : κ} (d : List (κ × α))
    (h : k' ≠ k) : dictGet? k' (dictPop k d).2 = dictGet? k' d := by
  induction d with
  | nil => rfl
  | cons hd tl ih =>
    obtain ⟨k₀, v⟩ := hd
    by_cases h0 : k₀ = k
    · subst h0
      have hne : ¬ (k₀ = k') := fun hh => h hh.symm
      simp [dictPop, dictGet?, hne]
    · simp [dictPop, dictGet?, h0, ih]

theorem dictGet?_dictSet_self {κ α : Type} [DecidableEq κ] (k : κ) (v : α) (d : List (κ × α)) :
    dictGet? k (dictSet k v d) = some v := by
  induction d with
  | nil => simp [dictSet, dictGet?]
  | cons hd tl ih =>
    obtain ⟨k₀, v₀⟩ := hd
    by_cases h0 : k₀ = k <;> simp [dictSet, dictGet?, h0, ih]

theorem dictGet?_dictSet_ne {κ α : Type} [DecidableEq κ] {k k' : κ} (v : α) (d : List (κ × α))
    (h : k' ≠ k) : dictGet? k' (dictSet k v d) = dictGet? k' d := by
  have hne : ¬ (k = k') := fun hh => h hh.symm
  induction d with
  | nil => simp [dictSet, dictGet?, hne]
  | cons hd tl ih =>
    obtain ⟨k₀, v₀⟩ := hd
    by_cases h0 : k₀ = k
    · subst h0
      simp [dictSet, dictGet?, hne]
    · simp [dictSet, dictGet?, h0, ih]

theorem dictGet?_append_left {κ α : Type} [DecidableEq κ] {k : κ} {a : List (κ × α)} {v : α}
    (b : List (κ × α)) (h : dictGet? k a = some v) : dictGet? k (a ++ b) = some v := by
  induction a with
  | nil => simp [dictGet?] at h
  | cons hd tl ih =>
    obtain ⟨k₀, v₀⟩ := hd
    by_cases h0 : k₀ = k
    · simp_all [dictGet?]
    · simp_all [dictGet?]

theorem dictGet?_append_right {κ α : Type} [DecidableEq κ] {k : κ} {a : List (κ × α)}
    (b : List (κ × α)) (h : dictGet? k a = none) : dictGet? k (a ++ b) = dictGet? k b := by
  induction a with
  | nil => simp
  | cons hd tl ih =>
    obtain ⟨k₀, v₀⟩ := hd
    by_cases h0 : k₀ = k
    · simp_all [dictGet?]
    · simp_all [dictGet?]

theorem mem_dictSet {κ α : Type} [DecidableEq κ] {k : κ} {v : α} {d : List (κ × α)}
    {p : κ × α} (h : p ∈ dictSet k v d) : p = (k, v) ∨ p ∈ d := by
  induction d with
  | nil => simpa [dictSet] using h
  | cons hd tl ih =>
    obtain ⟨k₀, v₀⟩ := hd
    by_cases h0 : k₀ = k
    · simp only [dictSet, if_pos h0, List.mem_cons] at h
      rcases h with h | h
      · exact Or.inl h
      · exact Or.inr (List.mem_cons_of_mem _ h)
    · simp only [dictSet, if_neg h0, List.mem_cons] at h
      rcases h with h | h
      · exact Or.inr (h ▸ List.mem_cons_self _ _)
      · rcases ih h with h' | h'
        · exact Or.inl h'
        · exact Or.inr (List.mem_cons_of_mem _ h')

theorem dictSet_mem_self {κ α : Type} [DecidableEq κ] (k : κ) (v : α) (d : List (κ × α)) :
    (k, v) ∈ dictSet k v d := by
  induction d with
  | nil => simp [dictSet]
  | cons hd tl ih =>
    obtain ⟨k₀, v₀⟩ := hd
    by_cases h0 : k₀ = k <;> simp [dictSet, h0, ih]

theorem dictGet?_eq_some_mem {κ α : Type} [DecidableEq κ] {k : κ} {v : α} {d : List (κ × α)}
    (h : dictGet? k d = some v) : (k, v) ∈ d := by
  induction d with
  | nil => simp [dictGet?] at h
  | cons hd tl ih =>
    obtain ⟨k₀, v₀⟩ := hd
    by_cases h0 : k₀ = k
    · subst h0
      simp [dictGet?] at h
      simp [h]
    · simp only [dictGet?, if_neg h0] at h
      exact List.mem_cons_of_mem _ (ih h)

theorem dictSet_absent_eq_append {κ α : Type} [DecidableEq κ] {k : κ} (v : α)
    {d : List (κ × α)} (h : dictGet? k d = none) : dictSet k v d = d ++ [(k, v)] := by
  induction d with
  | nil => rfl
  | cons hd tl ih =>
    obtain ⟨k₀, v₀⟩ := hd
    by_cases h0 : k₀ = k
    · simp [dictGet?, h0] at h
    · simp only [dictGet?, if_neg h0] at h
      simp [dictSet, h0, ih h]

theorem dictSet_append_self_absent {κ α : Type} [DecidableEq κ] {k : κ} (v w : α)
    {d : List (κ × α)} (h : dictGet? k d = none) :
    dictSet k v (d ++ [(k, w)]) = d ++ [(k, v)] := by
  induction d with
  | nil => simp [dictSet]
  | cons hd tl ih =>
    obtain ⟨k₀, v₀⟩ := hd
    by_cases h0 : k₀ = k
    · simp [dictGet?, h0] at h
    · simp only [dictGet?, if_neg h0] at h
      simp [dictSet, h0, ih h]

/-! ## The validation pass refines the spec-side first-violation scan -/

theorem validate_entry_mut_fst (avail : Avail) (ms : Attrs) :
    (validate_entry_mut avail ms).1 = violationOutcome (entry_violation avail ms) := by
  unfold validate_entry_mut entry_violation
  cases h1 : dictGet? "model_name" ms with
  | none => simp [dictContains, h1, violationOutcome]
  | some mn =>
    cases h2 : dictGet? "loader_func" ms with
    | none => simp [dictContains, h1, h2, violationOutcome]
    | some lf =>
      have hp1 : (dictPop "model_name" ms).1 = some mn := by rw [dictPop_fst, h1]
      have hrev : dictGet? "revision" (dictPop "model_name" ms).2 = dictGet? "revision" ms :=
        dictGet?_dictPop_ne _ (by decide)
      have hp2 : (dictPop "revision" (dictPop "model_name" ms).2).1 = dictGet? "revision" ms := by
        rw [dictPop_fst, hrev]
      have hlf2 :
          dictGet? "loader_func" (dictPop "revision" (dictPop "model_name" ms).2).2 = some lf := by
        rw [dictGet?_dictPop_ne _ (by decide), dictGet?_dictPop_ne _ (by decide), h2]
      have hp3 :
          (dictPop "loader_func" (dictPop "revision" (dictPop "model_name" ms).2).2).1 = some lf := by
        rw [dictPop_fst, hlf2]
      by_cases h3 : lf ∈ VALID_LOADER_FUNCTION
      · by_cases h4 : avail mn (dictGet? "revision" ms) = true
        · simp [dictContains, h1, h2, hp1, hp2, hp3, h3, h4, violationOutcome]
        · simp [dictContains, h1, h2, hp1, hp2, hp3, h3, h4, violationOutcome]
      · simp [dictContains, h1, h2, hp1, hp2, hp3, h3, violationOutcome]

theorem validate_metrics_mut_fst (avail : Avail) (metric : String) (ls : LangConfig) :
    (validate_metrics_mut avail metric ls).1 =
      violationOutcome (ls.findSome? fun q =>
        if metric ≠ "all" ∧ q.1 ≠ metric then none else entry_violation avail q.2) := by
  induction ls with
  | nil => rfl
  | cons hd tl ih =>
    obtain ⟨mname, ms⟩ := hd
    have he := validate_entry_mut_fst avail ms
    by_cases hf : metric ≠ "all" ∧ mname ≠ metric
    · simp [validate_metrics_mut, hf, List.findSome?_cons, ih]
    · cases hev : entry_violation avail ms with
      | some err =>
        rw [hev] at he
        simp [validate_metrics_mut, hf, List.findSome?_cons, hev, he, violationOutcome]
      | none =>
        rw [hev] at he
        simp [validate_metrics_mut, hf, List.findSome?_cons, hev, he, violationOutcome, ih]

theorem validate_langs_mut_fst (avail : Avail) (language metric : String) (cfg : Config) :
    (validate_langs_mut avail language metric cfg).1 =
      violationOutcome (config_first_violation avail cfg language metric) := by
  induction cfg with
  | nil => rfl
  | cons hd tl ih =>
    obtain ⟨lang, ls⟩ := hd
    have hm := validate_metrics_mut_fst avail metric ls
    by_cases hf : language ≠ "all" ∧ lang ≠ language
    · simp [validate_langs_mut, config_first_violation, hf, List.findSome?_cons] at ih ⊢
      exact ih
    · cases hml : ls.findSome? (fun q =>
          if metric ≠ "all" ∧ q.1 ≠ metric then none else entry_violation avail q.2) with
      | some err =>
        rw [hml] at hm
        simp [validate_langs_mut, config_first_violation, hf, List.findSome?_cons, hml, hm,
          violationOutcome]
      | none =>
        rw [hml] at hm
        simp [validate_langs_mut, config_first_violation, hf, List.findSome?_cons, hml, hm,
          violationOutcome] at ih ⊢
        exact ih

theorem validate_config_eq (avail : Avail) (cfg : Config) (language metric : String) :
    validate_config avail cfg language metric =
      violationOutcome (config_first_violation avail cfg language metric) :=
  validate_langs_mut_fst avail language metric cfg

theorem validate_config_ok_iff (avail : Avail) (cfg : Config) (language metric : String) :
    validate_config avail cfg language metric = Except.ok () ↔
      ∀ p ∈ cfg, ¬(language ≠ "all" ∧ p.1 ≠ language) →
        ∀ q ∈ p.2, ¬(metric ≠ "all" ∧ q.1 ≠ metric) →
          entry_violation avail q.2 = none := by
  rw [validate_config_eq]
  constructor
  · intro h p hp hpf q hq hqf
    cases hv : config_first_violation avail cfg language metric with
    | some e => rw [hv] at h; simp [violationOutcome] at h
    | none =>
      unfold config_first_violation at hv
      rw [List.findSome?_eq_none_iff] at hv
      have h1 := hv p hp
      rw [if_neg hpf, List.findSome?_eq_none_iff] at h1
      have h2 := h1 q hq
      rwa [if_neg hqf] at h2
  · intro h
    have hv : config_first_violation avail cfg language metric = none := by
      unfold config_first_violation
      rw [List.findSome?_eq_none_iff]
      intro p hp
      by_cases hpf : language ≠ "all" ∧ p.1 ≠ language
      · rw [if_pos hpf]
      · rw [if_neg hpf, List.findSome?_eq_none_iff]
        intro q hq
        by_cases hqf : metric ≠ "all" ∧ q.1 ≠ metric
        · rw [if_pos hqf]
        · rw [if_neg hqf]
          exact h p hp hpf q hq hqf
    rw [hv]
    rfl

theorem entry_violation_none_entryOK (avail : Avail) (ms : Attrs)
    (h : entry_violation avail ms = none) : EntryOK ms := by
  unfold entry_violation at h
  split_ifs at h with h1 h2 h3 h4
  have hmn : (dictGet? "model_name" ms).isSome = true := by
    simpa [dictContains] using h1
  refine ⟨hmn, ?_⟩
  have hlc : (dictGet? "loader_func" ms).isSome = true := by
    simpa [dictContains] using h2
  obtain ⟨lf, hlf⟩ := Option.isSome_iff_exists.mp hlc
  refine ⟨lf, hlf, ?_⟩
  rw [hlf, Option.getD_some] at h3
  exact h3

/-! ## Shape of the configuration after a successful set -/

theorem dictGet?_setIfTruthy_ne {k k' : String} (v? : Option String) (d : Attrs)
    (h : k' ≠ k) : dictGet? k' (setIfTruthy k v? d) = dictGet? k' d := by
  cases v? with
  | none => rfl
  | some v =>
    by_cases hv : v ≠ "" <;> simp [setIfTruthy, hv, dictGet?_dictSet_ne _ _ h]

theorem merged_detail_model_name (old : Attrs) (mn lf : String) (kw : Attrs) :
    dictGet? "model_name" (merged_detail old mn lf kw) = some mn := by
  unfold merged_detail
  rw [dictGet?_setIfTruthy_ne _ _ (by decide), dictGet?_setIfTruthy_ne _ _ (by decide)]
  exact dictGet?_dictSet_self _ _ _

theorem merged_detail_loader (old : Attrs) (mn lf : String) (kw : Attrs) :
    dictGet? "loader_func" (merged_detail old mn lf kw) = some lf := by
  unfold merged_detail
  rw [dictGet?_setIfTruthy_ne _ _ (by decide), dictGet?_setIfTruthy_ne _ _ (by decide),
    dictGet?_dictSet_ne _ _ (by decide)]
  exact dictGet?_dictSet_self _ _ _

theorem set_new_config_eq (cfg : Config) (language metric mn lf : String) (kw : Attrs) :
    (∃ ls old, dictGet? language cfg = some ls ∧ dictGet? metric ls = some old ∧
       set_new_config cfg language metric mn lf kw =
         dictSet language (dictSet metric (merged_detail old mn lf kw) ls) cfg) ∨
    (∃ ls, dictGet? language cfg = some ls ∧ dictGet? metric ls = none ∧
       set_new_config cfg language metric mn lf kw =
         dictSet language (ls ++ [(metric, merged_detail [] mn lf kw)]) cfg) ∨
    (dictGet? language cfg = none ∧
       set_new_config cfg language metric mn lf kw =
         cfg ++ [(language, [(metric, merged_detail [] mn lf kw)])]) := by
  cases hl : dictGet? language cfg with
  | some ls =>
    cases hm : dictGet? metric ls with
    | some old =>
      refine Or.inl ⟨ls, old, rfl, hm, ?_⟩
      unfold set_new_config
      simp [hl, hm]
    | none =>
      refine Or.inr (Or.inl ⟨ls, rfl, hm, ?_⟩)
      unfold set_new_config
      simp only [hl, Option.isNone_some, Bool.false_eq_true, if_false, Option.getD_some, hm,
        Option.isNone_none, if_true]
      rw [dictGet?_dictSet_self]
      rw [dictSet_absent_eq_append _ hm, dictSet_append_self_absent _ _ hm]
      simp [Option.getD_some]
  | none =>
    refine Or.inr (Or.inr ⟨rfl, ?_⟩)
    unfold set_new_config
    simp only [hl, Option.isNone_none, if_true]
    rw [dictSet_absent_eq_append _ hl, dictGet?_append_right _ hl]
    simp only [dictGet?, if_pos rfl, Option.getD_some]
    rw [dictSet_append_self_absent _ _ hl]
    simp [dictGet?, dictSet]

theorem set_body_ok (avail : Avail) (cfg : Config) (language metric mn lf : String)
    (kw : Attrs) (nc : Config)
    (hb : set_body avail cfg language metric mn lf kw = Except.ok nc) :
    nc = set_new_config cfg language metric mn lf kw ∧
    validate_config avail nc language metric = Except.ok () := by
  unfold set_body at hb
  split_ifs at hb
  cases hv : validate_config avail (set_new_config cfg language metric mn lf kw) language metric
    with
  | error e => rw [hv] at hb; cases hb
  | ok u =>
    rw [hv] at hb
    cases hb
    cases u
    exact ⟨rfl, hv⟩

theorem set_model_error_state (avail : Avail) (st : MMState)
    (language metric mn lf : String) (kw : Attrs) (e : CfgError)
    (h : (set_model_for_metric avail st language metric mn lf kw).1 = Except.error e) :
    (set_model_for_metric avail st language metric mn lf kw).2 = st := by
  unfold set_model_for_metric at h ⊢
  cases hb : set_body avail st.config language metric mn lf kw with
  | error err => rfl
  | ok nc => rw [hb] at h; simp at h

theorem set_model_ok_state (avail : Avail) (st : MMState)
    (language metric mn lf : String) (kw : Attrs) (nc : Config)
    (hb : set_body avail st.config language metric mn lf kw = Except.ok nc) :
    (set_model_for_metric avail st language metric mn lf kw).2 =
      { st with config := nc } := by
  unfold set_model_for_metric
  rw [hb]

theorem set_model_cache_unchanged (avail : Avail) (st : MMState)
    (language metric mn lf : String) (kw : Attrs) :
    (set_model_for_metric avail st language metric mn lf kw).2.cacheEntries = st.cacheEntries ∧
    (set_model_for_metric avail st language metric mn lf kw).2.loaderCalls = st.loaderCalls := by
  unfold set_model_for_metric
  cases set_body avail st.config language metric mn lf kw <;> exact ⟨rfl, rfl⟩

theorem set_new_config_ConfigOK (avail : Avail) (cfg : Config)
    (language metric mn lf : String) (kw : Attrs) (hok : ConfigOK cfg)
    (hval : validate_config avail (set_new_config cfg language metric mn lf kw) language metric =
      Except.ok ()) :
    ConfigOK (set_new_config cfg language metric mn lf kw) := by
  have hsel := (validate_config_ok_iff avail
    (set_new_config cfg language metric mn lf kw) language metric).mp hval
  intro p hp q hq
  rcases set_new_config_eq cfg language metric mn lf kw with
    ⟨ls, old, hl, hm, he⟩ | ⟨ls, hl, hm, he⟩ | ⟨hl, he⟩
  · rw [he] at hp
    rcases mem_dictSet hp with hpe | hpc
    · subst hpe
      rcases mem_dictSet hq with hqe | hql
      · subst hqe
        have hpmem : ((language, dictSet metric (merged_detail old mn lf kw) ls) :
            String × LangConfig) ∈ set_new_config cfg language metric mn lf kw := by
          rw [he]; exact dictSet_mem_self _ _ _
        have hqmem := dictSet_mem_self metric (merged_detail old mn lf kw) ls
        have hv := hsel _ hpmem (fun hc => hc.2 rfl) _ hqmem (fun hc => hc.2 rfl)
        exact entry_violation_none_entryOK avail _ hv
      · exact hok _ (dictGet?_eq_some_mem hl) _ hql
    · exact hok _ hpc _ hq
  · rw [he] at hp
    rcases mem_dictSet hp with hpe | hpc
    · subst hpe
      rcases List.mem_append.mp hq with hql | hqe
      · exact hok _ (dictGet?_eq_some_mem hl) _ hql
      · have hqe' : q = (metric, merged_detail [] mn lf kw) := by simpa using hqe
        subst hqe'
        have hpmem : ((language, ls ++ [(metric, merged_detail [] mn lf kw)]) :
            String × LangConfig) ∈ set_new_config cfg language metric mn lf kw := by
          rw [he]; exact dictSet_mem_self _ _ _
        have hqmem : ((metric, merged_detail [] mn lf kw) : String × Attrs) ∈
            ls ++ [(metric, merged_detail [] mn lf kw)] :=
          List.mem_append_right _ (List.mem_singleton.mpr rfl)
        have hv := hsel _ hpmem (fun hc => hc.2 rfl) _ hqmem (fun hc => hc.2 rfl)
        exact entry_violation_none_entryOK avail _ hv
    · exact hok _ hpc _ hq
  · rw [he] at hp
    rcases List.mem_append.mp hp with hpc | hpe
    · exact hok _ hpc _ hq
    · have hpe' : p = (language, [(metric, merged_detail [] mn lf kw)]) := by simpa using hpe
      subst hpe'
      have hqe : q = (metric, merged_detail [] mn lf kw) := by simpa using hq
      subst hqe
      have hpmem : ((language, [(metric, merged_detail [] mn lf kw)]) :
          String × LangConfig) ∈ set_new_config cfg language metric mn lf kw := by
        rw [he]; exact List.mem_append_right _ (List.mem_singleton.mpr rfl)
      have hqmem : ((metric, merged_detail [] mn lf kw) : String × Attrs) ∈
          [(metric, merged_detail [] mn lf kw)] := List.mem_singleton.mpr rfl
      have hv := hsel _ hpmem (fun hc => hc.2 rfl) _ hqmem (fun hc => hc.2 rfl)
      exact entry_violation_none_entryOK avail _ hv

theorem set_preserves_ConfigOK (avail : Avail) (st : MMState)
    (language metric mn lf : String) (kw : Attrs) (hok : ConfigOK st.config) :
    ConfigOK ((set_model_for_metric avail st language metric mn lf kw).2.config) := by
  cases hb : set_body avail st.config language metric mn lf kw with
  | error e =>
    have he : (set_model_for_metric avail st language metric mn lf kw).1 = Except.error e := by
      unfold set_model_for_metric; rw [hb]
    rw [set_model_error_state avail st language metric mn lf kw e he]
    exact hok
  | ok nc =>
    rw [set_model_ok_state avail st language metric mn lf kw nc hb]
    obtain ⟨hnc, hval⟩ := set_body_ok avail st.config language metric mn lf kw nc hb
    subst hnc
    exact set_new_config_ConfigOK avail st.config language metric mn lf kw hok hval

/-! ## Behavior of `fetch_model` -/

theorem fetch_model_config_eq (st : MMState) (language metric : String) :
    (fetch_model st language metric).2.config = st.config := by
  unfold fetch_model
  repeat' split
  all_goals rfl

theorem fetch_model_hit (st : MMState) (language metric : String) (inst : ModelInstance)
    (h : dictGet? (language, metric) st.cacheEntries = some inst) :
    fetch_model st language metric = (Except.ok inst, st) := by
  unfold fetch_model
  rw [h]

theorem fetch_model_no_language (st : MMState) (language metric : String)
    (hc : dictGet? (language, metric) st.cacheEntries = none)
    (hl : dictGet? language st.config = none) :
    fetch_model st language metric =
      (Except.error (CfgError.keyError "Language not supported yet"), st) := by
  simp only [fetch_model, hc, hl]

theorem fetch_model_no_metric (st : MMState) (language metric : String) (ls : LangConfig)
    (hc : dictGet? (language, metric) st.cacheEntries = none)
    (hl : dictGet? language st.config = some ls)
    (hm : dictGet? metric ls = none) :
    fetch_model st language metric =
      (Except.error (CfgError.keyError "Metric not supported yet."), st) := by
  simp only [fetch_model, hc, hl, hm]

theorem fetch_model_miss_ok (st : MMState) (language metric : String) (ls : LangConfig)
    (entry : Attrs) (lf : String) (strat : LoaderStrategy)
    (hc : dictGet? (language, metric) st.cacheEntries = none)
    (hl : dictGet? language st.config = some ls)
    (hm : dictGet? metric ls = some entry)
    (hlf : (dictPop "loader_func" entry).1 = some lf)
    (hmap : dictGet? lf LOADER_MAP = some strat) :
    fetch_model st language metric =
      (Except.ok ⟨lf, (dictPop "loader_func" entry).2, st.loaderCalls.length⟩,
       { st with
          cacheEntries := st.cacheEntries ++
            [((language, metric), ⟨lf, (dictPop "loader_func" entry).2, st.loaderCalls.length⟩)],
          loaderCalls := st.loaderCalls ++ [(lf, (dictPop "loader_func" entry).2)] }) := by
  simp only [fetch_model, hc, hl, hm, hlf, hmap]

theorem fetch_model_no_loader (st : MMState) (language metric : String) (ls : LangConfig)
    (entry : Attrs)
    (hc : dictGet? (language, metric) st.cacheEntries = none)
    (hl : dictGet? language st.config = some ls)
    (hm : dictGet? metric ls = some entry)
    (hlf : (dictPop "loader_func" entry).1 = none) :
    fetch_model st language metric = (Except.error (CfgError.keyError "loader_func"), st) := by
  simp only [fetch_model, hc, hl, hm, hlf]

theorem fetch_model_bad_loader (st : MMState) (language metric : String) (ls : LangConfig)
    (entry : Attrs) (lf : String)
    (hc : dictGet? (language, metric) st.cacheEntries = none)
    (hl : dictGet? language st.config = some ls)
    (hm : dictGet? metric ls = some entry)
    (hlf : (dictPop "loader_func" entry).1 = some lf)
    (hmap : dictGet? lf LOADER_MAP = none) :
    fetch_model st language metric =
      (Except.error (CfgError.keyError "loader_func not in LOADER_MAP"), st) := by
  simp only [fetch_model, hc, hl, hm, hlf, hmap]

theorem fetch_model_ok_twice (st st' : MMState) (language metric : String)
    (inst : ModelInstance)
    (h : fetch_model st language metric = (Except.ok inst, st')) :
    fetch_model st' language metric = (Except.ok inst, st') ∧
    st'.loaderCalls.length ≤ st.loaderCalls.length + 1 := by
  cases hc : dictGet? (language, metric) st.cacheEntries with
  | some i =>
    rw [fetch_model_hit st language metric i hc] at h
    simp only [Prod.mk.injEq, Except.ok.injEq] at h
    obtain ⟨rfl, rfl⟩ := h
    exact ⟨fetch_model_hit st language metric i hc, Nat.le_succ _⟩
  | none =>
    cases hl : dictGet? language st.config with
    | none =>
      rw [fetch_model_no_language st language metric hc hl] at h
      simp at h
    | some ls =>
      cases hm : dictGet? metric ls with
      | none =>
        rw [fetch_model_no_metric st language metric ls hc hl hm] at h
        simp at h
      | some entry =>
        cases hlf : (dictPop "loader_func" entry).1 with
        | none =>
          rw [fetch_model_no_loader st language metric ls entry hc hl hm hlf] at h
          simp at h
        | some lf =>
          cases hmap : dictGet? lf LOADER_MAP with
          | none =>
            rw [fetch_model_bad_loader st language metric ls entry lf hc hl hm hlf hmap] at h
            simp at h
          | some strat =>
            rw [fetch_model_miss_ok st language metric ls entry lf strat hc hl hm hlf hmap] at h
            simp only [Prod.mk.injEq, Except.ok.injEq] at h
            obtain ⟨rfl, rfl⟩ := h
            constructor
            · apply fetch_model_hit
              show dictGet? (language, metric)
                (st.cacheEntries ++ [((language, metric), _)]) = _
              rw [dictGet?_append_right _ hc]
              simp [dictGet?]
            · simp

theorem fetch_model_dispatch_core (st : MMState) (language metric : String)
    (ls : LangConfig) (entry : Attrs) (inst : ModelInstance)
    (hc : dictGet? (language, metric) st.cacheEntries = none)
    (hl : dictGet? language st.config = some ls)
    (hm : dictGet? metric ls = some entry)
    (hok : (fetch_model st language metric).1 = Except.ok inst) :
    ∃ lf strat, dictGet? "loader_func" entry = some lf ∧
      dictGet? lf LOADER_MAP = some strat ∧
      inst = ⟨lf, (dictPop "loader_func" entry).2, st.loaderCalls.length⟩ ∧
      (fetch_model st language metric).2.loaderCalls =
        st.loaderCalls ++ [(lf, (dictPop "loader_func" entry).2)] := by
  cases hlf : (dictPop "loader_func" entry).1 with
  | none =>
    rw [fetch_model_no_loader st language metric ls entry hc hl hm hlf] at hok
    simp at hok
  | some lf =>
    cases hmap : dictGet? lf LOADER_MAP with
    | none =>
      rw [fetch_model_bad_loader st language metric ls entry lf hc hl hm hlf hmap] at hok
      simp at hok
    | some strat =>
      have hfull := fetch_model_miss_ok st language metric ls entry lf strat hc hl hm hlf hmap
      rw [hfull] at hok
      simp only [Except.ok.injEq] at hok
      refine ⟨lf, strat, ?_, hmap, hok.symm, ?_⟩
      · rw [← dictPop_fst]
        exact hlf
      · rw [hfull]

theorem fetch_preserves_CacheConsistent (st : MMState) (language metric : String)
    (h : CacheConsistent st) : CacheConsistent (fetch_model st language metric).2 := by
  cases hc : dictGet? (language, metric) st.cacheEntries with
  | some i => rw [fetch_model_hit st language metric i hc]; exact h
  | none =>
    cases hl : dictGet? language st.config with
    | none => rw [fetch_model_no_language st language metric hc hl]; exact h
    | some ls =>
      cases hm : dictGet? metric ls with
      | none => rw [fetch_model_no_metric st language metric ls hc hl hm]; exact h
      | some entry =>
        cases hlf : (dictPop "loader_func" entry).1 with
        | none => rw [fetch_model_no_loader st language metric ls entry hc hl hm hlf]; exact h
        | some lf =>
          cases hmap : dictGet? lf LOADER_MAP with
          | none =>
            rw [fetch_model_bad_loader st language metric ls entry lf hc hl hm hlf hmap]
            exact h
          | some strat =>
            rw [fetch_model_miss_ok st language metric ls entry lf strat hc hl hm hlf hmap]
            intro c hcmem
            rcases List.mem_append.mp hcmem with hold | hnew
            · exact h c hold
            · have hce : c = ((language, metric),
                  ⟨lf, (dictPop "loader_func" entry).2, st.loaderCalls.length⟩) := by
                simpa using hnew
              subst hce
              refine ⟨ls, hl, ?_⟩
              rw [hm]
              rfl

theorem set_preserves_CacheConsistent (avail : Avail) (st : MMState)
    (language metric mn lf : String) (kw : Attrs) (h : CacheConsistent st) :
    CacheConsistent (set_model_for_metric avail st language metric mn lf kw).2 := by
  cases hb : set_body avail st.config language metric mn lf kw with
  | error e =>
    have he : (set_model_for_metric avail st language metric mn lf kw).1 = Except.error e := by
      unfold set_model_for_metric; rw [hb]
    rw [set_model_error_state avail st language metric mn lf kw e he]
    exact h
  | ok nc =>
    rw [set_model_ok_state avail st language metric mn lf kw nc hb]
    obtain ⟨hnc, _⟩ := set_body_ok avail st.config language metric mn lf kw nc hb
    subst hnc
    intro c hcmem
    obtain ⟨ls0, h1, h2⟩ := h c hcmem
    rcases set_new_config_eq st.config language metric mn lf kw with
      ⟨ls, old, hl, hm, he⟩ | ⟨ls, hl, hm, he⟩ | ⟨hl, he⟩
    · rw [he]
      by_cases hll : c.1.1 = language
      · rw [hll] at h1
        rw [hl] at h1
        have hls : ls = ls0 := by injection h1
        subst hls
        refine ⟨dictSet metric (merged_detail old mn lf kw) ls, ?_, ?_⟩
        · rw [hll]
          exact dictGet?_dictSet_self _ _ _
        · by_cases hmm : c.1.2 = metric
          · rw [hmm, dictGet?_dictSet_self]
            rfl
          · rw [dictGet?_dictSet_ne _ _ hmm]
            exact h2
      · exact ⟨ls0, by rw [dictGet?_dictSet_ne _ _ hll]; exact h1, h2⟩
    · rw [he]
      by_cases hll : c.1.1 = language
      · rw [hll] at h1
        rw [hl] at h1
        have hls : ls = ls0 := by injection h1
        subst hls
        refine ⟨ls ++ [(metric, merged_detail [] mn lf kw)], ?_, ?_⟩
        · rw [hll]
          exact dictGet?_dictSet_self _ _ _
        · obtain ⟨v, hv⟩ := Option.isSome_iff_exists.mp h2
          rw [dictGet?_append_left _ hv]
          rfl
      · exact ⟨ls0, by rw [dictGet?_dictSet_ne _ _ hll]; exact h1, h2⟩
    · rw [he]
      exact ⟨ls0, dictGet?_append_left _ h1, h2⟩

theorem applyOps_inv {P : MMState → Prop}
    (hstep : ∀ st op, P st → P (applyOp st op)) :
    ∀ (ops : List MMOp) (st : MMState), P st → P (applyOps ops st)
  | [], _, h => h
  | op :: ops, st, h => applyOps_inv hstep ops (applyOp st op) (hstep st op h)

theorem reachable_inv (ops : List MMOp) :
    ConfigOK ((applyOps ops initMM).config) ∧ CacheConsistent (applyOps ops initMM) := by
  have hinit : ConfigOK (initMM.config) ∧ CacheConsistent initMM := by
    constructor
    · intro p hp
      exact absurd hp (List.not_mem_nil p)
    · intro c hc
      exact absurd hc (List.not_mem_nil c)
  refine @applyOps_inv (fun st => ConfigOK st.config ∧ CacheConsistent st) ?_ ops initMM hinit
  rintro st op ⟨hcfg, hcache⟩
  cases op with
  | setModel avail language metric mn lf kw =>
    exact ⟨set_preserves_ConfigOK avail st language metric mn lf kw hcfg,
      set_preserves_CacheConsistent avail st language metric mn lf kw hcache⟩
  | fetch language metric =>
    constructor
    · show ConfigOK ((fetch_model st language metric).2.config)
      rw [fetch_model_config_eq]
      exact hcfg
    · exact fetch_preserves_CacheConsistent st language metric hcache

/-! ## Behavior of `to_full_width` -/

theorem perturbChars_length (p : ℚ) (rnd : Nat → ℚ) (s : List Char) :
    ∀ i, (perturbChars p rnd s i).1.length = s.length := by
  induction s with
  | nil => intro i; rfl
  | cons c cs ih => intro i; simp [perturbChars, ih]

theorem perturbChars_all (p : ℚ) (rnd : Nat → ℚ) (hrnd : ∀ j, ¬ rnd j > p) (s : List Char) :
    ∀ i, (perturbChars p rnd s i).1 = s.map h2z_char := by
  induction s with
  | nil => intro i; rfl
  | cons c cs ih => intro i; simp [perturbChars, hrnd i, ih]

theorem perturbRepeat_lengths (p : ℚ) (rnd : Nat → ℚ) (s : List Char) :
    ∀ n i, (perturbRepeat p rnd s n i).1.map List.length = List.replicate n s.length := by
  intro n
  induction n with
  | zero => intro i; rfl
  | succ k ih =>
    intro i
    simp [perturbRepeat, perturbChars_length, ih, List.replicate_succ]

theorem perturbRepeat_all (p : ℚ) (rnd : Nat → ℚ) (hrnd : ∀ j, ¬ rnd j > p) (s : List Char) :
    ∀ n i, (perturbRepeat p rnd s n i).1 = List.replicate n (s.map h2z_char) := by
  intro n
  induction n with
  | zero => intro i; rfl
  | succ k ih =>
    intro i
    simp [perturbRepeat, perturbChars_all p rnd hrnd, ih, List.replicate_succ]

theorem perturbAll_lengths (p : ℚ) (rnd : Nat → ℚ) (n : Nat) (ss : List (List Char)) :
    ∀ i, ((perturbAll p rnd n ss i).1).map List.length =
      (ss.map fun s => List.replicate n s.length).flatten := by
  induction ss with
  | nil => intro i; rfl
  | cons s rest ih =>
    intro i
    simp [perturbAll, perturbRepeat_lengths, ih]

theorem perturbAll_all (p : ℚ) (rnd : Nat → ℚ) (hrnd : ∀ j, ¬ rnd j > p) (n : Nat)
    (ss : List (List Char)) :
    ∀ i, (perturbAll p rnd n ss i).1 =
      (ss.map fun s => List.replicate n (s.map h2z_char)).flatten := by
  induction ss with
  | nil => intro i; rfl
  | cons s rest ih =>
    intro i
    simp [perturbAll, perturbRepeat_all p rnd hrnd, ih]

theorem flatten_replicate_length (n : Nat) (ss : List (List Char)) :
    ((ss.map fun s => List.replicate n s.length).flatten).length = n * ss.length := by
  induction ss with
  | nil => simp
  | cons s rest ih => simp [ih, Nat.mul_succ, Nat.add_comm]

theorem perturbAll_length (p : ℚ) (rnd : Nat → ℚ) (n : Nat) (ss : List (List Char)) :
    ∀ i, (perturbAll p rnd n ss i).1.length = n * ss.length := by
  intro i
  have h := congrArg List.length (perturbAll_lengths p rnd n ss i)
  simp only [List.length_map] at h
  rw [h, flatten_replicate_length]

/-! ## Claim theorems -/

/-- C1 (code bug): the spec — and the code's own comment — say a valid
`__set_model_for_metric` clears the memoized model cache so that the next
`fetch_model` for that key reloads. The code guards
`self.fetch_model.cache_clear()` with `if ModelManager.validate_config(...)`,
and `validate_config` returns `None` (falsy), so the clear never runs. On
this concrete reachable manager (configured and fetched once for
`(zh, semantic_similarity)`), a fully valid reconfiguration from `modelA`
to `modelB` commits the store update, yet the memo table still holds the
stale `modelA` instance and the next fetch returns it unchanged, with no new
loader invocation. -/
theorem set_model_for_metric_never_clears_cache :
    stA = applyOps
      [MMOp.setModel availAll "zh" "semantic_similarity" "modelA"
        "load_sentence_transformers" [],
       MMOp.fetch "zh" "semantic_similarity"] initMM ∧
    (set_model_for_metric availAll stA "zh" "semantic_similarity" "modelB"
      "load_sentence_transformers" []).1 = Except.ok () ∧
    (set_model_for_metric availAll stA "zh" "semantic_similarity" "modelB"
      "load_sentence_transformers" []).2.config =
      [("zh", [("semantic_similarity",
        [("loader_func", "load_sentence_transformers"), ("model_name", "modelB")])])] ∧
    (set_model_for_metric availAll stA "zh" "semantic_similarity" "modelB"
      "load_sentence_transformers" []).2.cacheEntries = stA.cacheEntries ∧
    fetch_model (set_model_for_metric availAll stA "zh" "semantic_similarity" "modelB"
      "load_sentence_transformers" []).2 "zh" "semantic_similarity" =
      (Except.ok instA,
       (set_model_for_metric availAll stA "zh" "semantic_similarity" "modelB"
         "load_sentence_transformers" []).2) :=
  ⟨rfl, rfl, rfl, rfl, rfl⟩

/-- C2: every failing `__set_model_for_metric` call (unsupported language or
metric, invalid loader, missing fields, unresolvable model — every
`ValueError`/`KeyError` the body raises) leaves the configuration store
exactly as it was before the call: the `except` clause restores the
deep-copied snapshot before re-raising. -/
theorem set_model_for_metric_rollback_on_error (avail : Avail) (st : MMState)
    (language metric model_name loader_func : String) (kwargs : Attrs) (e : CfgError)
    (h : (set_model_for_metric avail st language metric model_name loader_func kwargs).1 =
      Except.error e) :
    (set_model_for_metric avail st language metric model_name loader_func kwargs).2.config =
      st.config := by
  rw [set_model_error_state avail st language metric model_name loader_func kwargs e h]

/-- Witness for C2: on a hub where no model resolves, reconfiguring
`(zh, toxicity)` mutates the store, fails availability validation, and
rolls the configuration back to its pre-call value. -/
theorem set_model_for_metric_rollback_on_error_witness :
    (set_model_for_metric availNone stA "zh" "toxicity" "modelC"
      "load_sentence_transformers" []).2.config = stA.config :=
  set_model_for_metric_rollback_on_error availNone stA "zh" "toxicity" "modelC"
    "load_sentence_transformers" []
    (CfgError.valueError "Cannot find model with revision and Huggingface Hub") rfl

/-- C3: `validate_config` raises an error exactly when some entry selected by
the language/metric filters lacks `model_name`, lacks `loader_func`, names a
loader outside the three registered strategies, or does not resolve on the
hub; it raises the first such violation in storage order and passes
otherwise. -/
theorem validate_config_iff_first_violation (avail : Avail) (cfg : Config)
    (language metric : String) :
    validate_config avail cfg language metric =
      violationOutcome (config_first_violation avail cfg language metric) :=
  validate_config_eq avail cfg language metric

/-- C4: a second `fetch_model` with the same arguments and no intervening
configuration change returns the identical memoized instance and leaves the
state untouched (in particular no second loader invocation happens); across
the two calls the loader ran at most once. -/
theorem fetch_model_memoizes (st st' : MMState) (language metric : String)
    (inst : ModelInstance)
    (h : fetch_model st language metric = (Except.ok inst, st')) :
    fetch_model st' language metric = (Except.ok inst, st') ∧
    st'.loaderCalls.length ≤ st.loaderCalls.length + 1 :=
  fetch_model_ok_twice st st' language metric inst h

/-- Witness for C4: fetching `(zh, semantic_similarity)` on the configured
manager loads `instA`; fetching again returns the same instance from the
memo table without further loading. -/
theorem fetch_model_memoizes_witness :
    fetch_model stA "zh" "semantic_similarity" = (Except.ok instA, stA) ∧
    stA.loaderCalls.length ≤ stCfg.loaderCalls.length + 1 :=
  fetch_model_memoizes stCfg stA "zh" "semantic_similarity" instA rfl

/-- C5: on any manager reachable from the fresh state by set and fetch
operations, a `fetch_model` call whose language is absent from the
configuration, or whose metric is absent under that language, raises a
`KeyError` and leaves the state untouched (no loader is invoked). -/
theorem fetch_model_unsupported_raises (ops : List MMOp) (language metric : String)
    (h : dictGet? language (applyOps ops initMM).config = none ∨
      ∃ ls, dictGet? language (applyOps ops initMM).config = some ls ∧
        dictGet? metric ls = none) :
    ∃ msg, fetch_model (applyOps ops initMM) language metric =
      (Except.error (CfgError.keyError msg), applyOps ops initMM) := by
  obtain ⟨-, hcache⟩ := reachable_inv ops
  have hc : dictGet? (language, metric) (applyOps ops initMM).cacheEntries = none := by
    cases hcc : dictGet? (language, metric) (applyOps ops initMM).cacheEntries with
    | none => rfl
    | some i =>
      obtain ⟨ls, h1, h2⟩ := hcache _ (dictGet?_eq_some_mem hcc)
      rcases h with h | ⟨ls', hl', hm'⟩
      · rw [h] at h1
        cases h1
      · rw [hl'] at h1
        have hle : ls' = ls := by injection h1
        subst hle
        rw [hm'] at h2
        simp at h2
  rcases h with h | ⟨ls', hl', hm'⟩
  · exact ⟨_, fetch_model_no_language _ language metric hc h⟩
  · exact ⟨_, fetch_model_no_metric _ language metric ls' hc hl' hm'⟩

/-- Witness for C5: on the fresh manager (empty configuration), fetching
`(zh, toxicity)` raises a `KeyError` and changes nothing. -/
theorem fetch_model_unsupported_raises_witness :
    ∃ msg, fetch_model (applyOps [] initMM) "zh" "toxicity" =
      (Except.error (CfgError.keyError msg), applyOps [] initMM) :=
  fetch_model_unsupported_raises [] "zh" "toxicity" (Or.inl rfl)

/-- C6: a fetch that actually loads (no memoized result) for a configured
`(language, metric)` entry dispatches on the entry's `loader_func` name to
exactly one of the three registered strategies in `LOADER_MAP` and invokes
that loader once with the entry's remaining attributes (the deep-copied
entry minus `loader_func`), returning its result. -/
theorem fetch_model_dispatches_loader (st : MMState) (language metric : String)
    (ls : LangConfig) (entry : Attrs) (inst : ModelInstance)
    (hcache : dictGet? (language, metric) st.cacheEntries = none)
    (hlang : dictGet? language st.config = some ls)
    (hmetric : dictGet? metric ls = some entry)
    (hok : (fetch_model st language metric).1 = Except.ok inst) :
    ∃ lf strat, dictGet? "loader_func" entry = some lf ∧
      dictGet? lf LOADER_MAP = some strat ∧
      inst = ⟨lf, (dictPop "loader_func" entry).2, st.loaderCalls.length⟩ ∧
      (fetch_model st language metric).2.loaderCalls =
        st.loaderCalls ++ [(lf, (dictPop "loader_func" entry).2)] :=
  fetch_model_dispatch_core st language metric ls entry inst hcache hlang hmetric hok

/-- Witness for C6: loading `(zh, semantic_similarity)` from `entryA`
dispatches to the sentence-transformers strategy with the remaining
attribute `model_name = modelA`. -/
theorem fetch_model_dispatches_loader_witness :
    ∃ lf strat, dictGet? "loader_func" entryA = some lf ∧
      dictGet? lf LOADER_MAP = some strat ∧
      instA = ⟨lf, (dictPop "loader_func" entryA).2, stCfg.loaderCalls.length⟩ ∧
      (fetch_model stCfg "zh" "semantic_similarity").2.loaderCalls =
        stCfg.loaderCalls ++ [(lf, (dictPop "loader_func" entryA).2)] :=
  fetch_model_dispatches_loader stCfg "zh" "semantic_similarity"
    [("semantic_similarity", entryA)] entryA instA rfl rfl rfl rfl

/-- C7: on any manager reachable from the fresh (empty) state by any sequence
of set and fetch operations — successful or failed — every entry of the
configuration store carries a `model_name` and a `loader_func`, the latter
naming one of the three registered strategies. -/
theorem config_store_invariant_reachable (ops : List MMOp) :
    ConfigOK ((applyOps ops initMM).config) :=
  (reachable_inv ops).1

/-- C8: `fetch_model` never mutates the configuration store — the entry is
deep-copied before `loader_func` is popped from it — whether the call hits
the memo table, loads, or raises. -/
theorem fetch_model_preserves_config (st : MMState) (language metric : String) :
    (fetch_model st language metric).2.config = st.config :=
  fetch_model_config_eq st language metric

/-- C9: `validate_config` never mutates the configuration object passed by
the caller: the deep copy taken on entry absorbs the destructive pops, so
the caller's mapping is unchanged whether validation passes or raises —
while the working copy the pops run on genuinely ends up different (second
conjunct), which is what the deep copy protects against. -/
theorem validate_config_preserves_argument (avail : Avail) (cfg : Config)
    (language metric : String) :
    (validate_config_caller avail cfg language metric).2 = cfg ∧
    ∃ cfg0, (validate_langs_mut avail "all" "all" cfg0).2 ≠ cfg0 := by
  refine ⟨rfl, ⟨[("zh", [("m", [("model_name", "x"), ("loader_func", "bad")])])], ?_⟩⟩
  intro hcontra
  have hrun : (validate_langs_mut avail "all" "all"
      [("zh", [("m", [("model_name", "x"), ("loader_func", "bad")])])]).2 =
      [("zh", [("m", [])])] := rfl
  rw [hrun] at hcontra
  simp at hcontra

/-- C10: `to_full_width` returns `num_perturbations` perturbed copies per
input instance (a bare string counting as one instance), each output string
has exactly the character count of the instance it was derived from, and
with `aug_char_p = 1` every character is converted through the full-width
mapping (the draws of `random.random()` lie in `[0, 1)`, so no draw exceeds
`1`). -/
theorem to_full_width_spec (instances : String ⊕ List String) (aug_char_p : ℚ)
    (num_perturbations : Nat) (rnd : Nat → ℚ) :
    (to_full_width instances aug_char_p num_perturbations rnd).length =
      num_perturbations * (normalizeInstances instances).length ∧
    (to_full_width instances aug_char_p num_perturbations rnd).map String.length =
      ((normalizeInstances instances).map fun s =>
        List.replicate num_perturbations s.length).flatten ∧
    (aug_char_p = 1 → (∀ i, 0 ≤ rnd i ∧ rnd i < 1) →
      to_full_width instances aug_char_p num_perturbations rnd =
        ((normalizeInstances instances).map fun s =>
          List.replicate num_perturbations (String.mk (s.data.map h2z_char))).flatten) := by
  refine ⟨?_, ?_, ?_⟩
  · unfold to_full_width
    rw [List.length_map, perturbAll_length, List.length_map]
  · unfold to_full_width
    rw [List.map_map]
    have h1 : (String.length ∘ fun cs : List Char => String.mk cs) = List.length := by
      funext cs
      rfl
    rw [h1, perturbAll_lengths, List.map_map]
    rfl
  · intro hp hrnd
    have hno : ∀ j, ¬ rnd j > aug_char_p := by
      intro j hgt
      rw [hp] at hgt
      exact absurd hgt (not_lt.mpr (le_of_lt (hrnd j).2))
    unfold to_full_width
    rw [perturbAll_all aug_char_p rnd hno num_perturbations _ 0]
    simp only [List.map_flatten, List.map_map]
    have hfun : ((List.map fun cs : List Char => String.mk cs) ∘
        (fun s => List.replicate num_perturbations (List.map h2z_char s)) ∘ String.data) =
        fun s : String => List.replicate num_perturbations (String.mk (s.data.map h2z_char)) := by
      funext s
      simp [List.map_replicate]
    rw [hfun]

/-- Witness for C10: with `aug_char_p = 1` and the constant draw `0`, both
perturbed copies of `"a z"` are fully converted. -/
theorem to_full_width_spec_witness :
    to_full_width (Sum.inl "a z") 1 2 (fun _ => 0) =
      ((normalizeInstances (Sum.inl "a z")).map fun s =>
        List.replicate 2 (String.mk (s.data.map h2z_char))).flatten :=
  (to_full_width_spec (Sum.inl "a z") 1 2 (fun _ => 0)).2.2 rfl
    (fun _ => ⟨le_refl 0, zero_lt_one⟩)

end LangCheck
